import Mathlib

/-!
Verification of the cocogitto `cog` core against its specification.

The repository snapshot under inspection ships the CLI driver
(`src/bin/cog.rs`); the library core (commit parser, version-increment
engine, changelog renderer, commit-filter engine) is declared in the spec
and consumed by the driver.  Definitions for the missing library parts are
modelled from the spec, as marked in their doc comments; definitions for
the CLI driver logic are translated from `src/bin/cog.rs`.

Strings are embedded as lists of characters (`Str`).
-/

/-- Character strings, embedded as lists of characters. -/
abbrev Str := List Char

/-- A structured conventional-commit record (spec §3).  The provenance
field `author` is copied verbatim from the raw input; `body` and `footers`
are not needed by any claim and are omitted. -/
structure CommitRecord where
  commit_type : Str
  scope : Option Str
  description : Str
  breaking : Bool
  author : Str
deriving DecidableEq, Repr

/-- A semantic version (spec §3). -/
structure SemVer where
  major : Nat
  minor : Nat
  patch : Nat
  pre : Option Str
  build : Option Str
deriving DecidableEq, Repr

/-- Modelled from the spec (§4.3): the manual override target of the
version-increment engine. -/
inductive ManualTarget where
  | explicit : SemVer → ManualTarget
  | forceMajor : ManualTarget
  | forceMinor : ManualTarget
  | forcePatch : ManualTarget
deriving DecidableEq, Repr

/-- Modelled from the spec (§3): the outcome of the version-increment
engine. -/
inductive VersionIncrementDecision where
  | bump : SemVer → VersionIncrementDecision
  | noApplicableCommits : VersionIncrementDecision
deriving DecidableEq, Repr

/-- Major bump: `(major+1, 0, 0)`, pre-release and build metadata dropped. -/
def majorBump (v : SemVer) : SemVer :=
  ⟨v.major + 1, 0, 0, none, none⟩

/-- Minor bump: `(major, minor+1, 0)`, pre-release and build metadata dropped. -/
def minorBump (v : SemVer) : SemVer :=
  ⟨v.major, v.minor + 1, 0, none, none⟩

/-- Patch bump: `(major, minor, patch+1)`, pre-release and build metadata dropped. -/
def patchBump (v : SemVer) : SemVer :=
  ⟨v.major, v.minor, v.patch + 1, none, none⟩

/-- The `feat` commit type. -/
def typeFeat : Str := ("feat").data

/-- The `fix` commit type. -/
def typeFix : Str := ("fix").data

/-- The `perf` commit type. -/
def typePerf : Str := ("perf").data

/-- Modelled from the spec (§4.3, missing library `cocogitto::conventional::version`):
`next_version(current, records, override)`.  An override dictates the
outcome without inspecting `records`; otherwise precedence is breaking →
major, `feat` → minor, `fix`/`perf` → patch, else `NoApplicableCommits`. -/
def next_version (current : SemVer) (records : List CommitRecord)
    (over : Option ManualTarget) : VersionIncrementDecision :=
  match over with
  | some (.explicit v) => .bump v
  | some .forceMajor => .bump (majorBump current)
  | some .forceMinor => .bump (minorBump current)
  | some .forcePatch => .bump (patchBump current)
  | none =>
    if records.any (fun r => r.breaking) then
      .bump (majorBump current)
    else if records.any (fun r => r.commit_type == typeFeat) then
      .bump (minorBump current)
    else if records.any (fun r => r.commit_type == typeFix || r.commit_type == typePerf) then
      .bump (patchBump current)
    else
      .noApplicableCommits

/-- Claim C1: `next_version` with no override computes the bump from the
records by fixed precedence — any breaking record forces a major bump;
otherwise any `feat` record forces a minor bump; otherwise any `fix` or
`perf` record forces a patch bump; in particular a commit set containing
both a `feat` and a `fix` record with no breaking record always decides a
minor bump, never a patch bump. -/
theorem next_version_precedence (current : SemVer) (records : List CommitRecord) :
    ((∃ r ∈ records, r.breaking = true) →
      next_version current records none = .bump (majorBump current)) ∧
    ((∀ r ∈ records, r.breaking = false) → (∃ r ∈ records, r.commit_type = typeFeat) →
      next_version current records none = .bump (minorBump current)) ∧
    ((∀ r ∈ records, r.breaking = false) → (∀ r ∈ records, r.commit_type ≠ typeFeat) →
      (∃ r ∈ records, r.commit_type = typeFix ∨ r.commit_type = typePerf) →
      next_version current records none = .bump (patchBump current)) ∧
    ((∀ r ∈ records, r.breaking = false) → (∃ r ∈ records, r.commit_type = typeFeat) →
      (∃ r ∈ records, r.commit_type = typeFix) →
      next_version current records none = .bump (minorBump current)) := by
  refine ⟨fun hb => ?_, fun hnb hf => ?_, fun hnb hnf hfp => ?_, fun hnb hf _ => ?_⟩
  · have h : records.any (fun r => r.breaking) = true := by
      simp only [List.any_eq_true]
      exact hb
    simp [next_version, h]
  · have h : records.any (fun r => r.breaking) = false := by
      simp only [List.any_eq_false]
      simpa using hnb
    have h2 : records.any (fun r => r.commit_type == typeFeat) = true := by
      simp only [List.any_eq_true, beq_iff_eq]
      exact hf
    simp [next_version, h, h2]
  · have h : records.any (fun r => r.breaking) = false := by
      simp only [List.any_eq_false]
      simpa using hnb
    have h2 : records.any (fun r => r.commit_type == typeFeat) = false := by
      simp only [List.any_eq_false, beq_iff_eq]
      simpa using hnf
    have h3 : records.any
        (fun r => r.commit_type == typeFix || r.commit_type == typePerf) = true := by
      simp only [List.any_eq_true, Bool.or_eq_true, beq_iff_eq]
      exact hfp
    simp [next_version, h, h2, h3]
  · have h : records.any (fun r => r.breaking) = false := by
      simp only [List.any_eq_false]
      simpa using hnb
    have h2 : records.any (fun r => r.commit_type == typeFeat) = true := by
      simp only [List.any_eq_true, beq_iff_eq]
      exact hf
    simp [next_version, h, h2]

/-- Witness for C1: for baseline `1.2.3` and a commit set holding a `feat`
and a `fix` record, neither breaking, the decision is the minor bump
`1.3.0`. -/
theorem next_version_precedence_witness :
    next_version ⟨1, 2, 3, none, none⟩
      [⟨typeFeat, none, ("a").data, false, ("me").data⟩,
       ⟨typeFix, none, ("b").data, false, ("me").data⟩] none =
      .bump ⟨1, 3, 0, none, none⟩ :=
  (next_version_precedence ⟨1, 2, 3, none, none⟩
      [⟨typeFeat, none, ("a").data, false, ("me").data⟩,
       ⟨typeFix, none, ("b").data, false, ("me").data⟩]).2.2.2
    (by decide) (by decide) (by decide)

/-- Claim C2: a manual override determines the outcome of `next_version`
from the override and the current version alone — `Explicit` yields the
literal version, the force targets apply the arithmetic bump to the
current version — and the record sequence is never inspected (any two
record sequences give the same outcome). -/
theorem next_version_override_determines (current : SemVer)
    (records records' : List CommitRecord) :
    (∀ v, next_version current records (some (.explicit v)) = .bump v) ∧
    next_version current records (some .forceMajor) = .bump (majorBump current) ∧
    next_version current records (some .forceMinor) = .bump (minorBump current) ∧
    next_version current records (some .forcePatch) = .bump (patchBump current) ∧
    (∀ t : ManualTarget,
      next_version current records (some t) = next_version current records' (some t)) := by
  refine ⟨fun v => rfl, rfl, rfl, rfl, fun t => ?_⟩
  cases t <;> rfl

/-- Claim C4: with no override, `next_version` returns
`NoApplicableCommits` — not an error — for the empty record sequence, and
for every record sequence in which no record is breaking and no record has
type `feat`, `fix` or `perf`; the decision carries no modified version. -/
theorem next_version_no_applicable (current : SemVer) (records : List CommitRecord)
    (h : ∀ r ∈ records, r.breaking = false ∧ r.commit_type ≠ typeFeat ∧
      r.commit_type ≠ typeFix ∧ r.commit_type ≠ typePerf) :
    next_version current records none = .noApplicableCommits ∧
    next_version current [] none = .noApplicableCommits := by
  constructor
  · have h1 : records.any (fun r => r.breaking) = false := by
      simp only [List.any_eq_false]
      intro r hr
      simp [(h r hr).1]
    have h2 : records.any (fun r => r.commit_type == typeFeat) = false := by
      simp only [List.any_eq_false, beq_iff_eq]
      intro r hr
      exact (h r hr).2.1
    have h3 : records.any
        (fun r => r.commit_type == typeFix || r.commit_type == typePerf) = false := by
      simp only [List.any_eq_false, Bool.or_eq_true, beq_iff_eq]
      intro r hr
      rintro (hx | hx)
      · exact (h r hr).2.2.1 hx
      · exact (h r hr).2.2.2 hx
    simp [next_version, h1, h2, h3]
  · rfl

/-- Witness for C4: a single `chore` record bumps nothing. -/
theorem next_version_no_applicable_witness :
    next_version ⟨1, 2, 3, none, none⟩
      [⟨("chore").data, none, ("deps").data, false, ("me").data⟩] none =
      .noApplicableCommits ∧
    next_version ⟨1, 2, 3, none, none⟩ [] none = .noApplicableCommits :=
  next_version_no_applicable ⟨1, 2, 3, none, none⟩
    [⟨("chore").data, none, ("deps").data, false, ("me").data⟩] (by decide)

/-- A typed parsing violation (spec §4.1, §7). -/
inductive CommitViolation where
  | unknownType : CommitViolation
  | emptyScope : CommitViolation
  | missingDescription : CommitViolation
  | malformedHeader : CommitViolation
deriving DecidableEq, Repr

/-- The parsed parts of a header line: type, optional scope, the header
breaking marker `!`, and the description. -/
structure HeaderParts where
  commit_type : Str
  scope : Option Str
  breaking : Bool
  description : Str
deriving DecidableEq, Repr

/-- Splits a string at newline characters, accumulator-style. -/
def splitLinesAux : Str → Str → List Str
  | [], acc => [acc.reverse]
  | c :: rest, acc =>
    if c = '\n' then acc.reverse :: splitLinesAux rest []
    else splitLinesAux rest (c :: acc)

/-- Splits a raw message into its lines. -/
def splitLines (s : Str) : List Str :=
  splitLinesAux s []

/-- Removes leading and trailing spaces. -/
def trimStr (s : Str) : Str :=
  (((s.dropWhile (fun c => c == ' ')).reverse).dropWhile (fun c => c == ' ')).reverse

/-- Characters ending the type segment of a header: `(`, `!` and `:`. -/
def headerStop (c : Char) : Bool :=
  c == '(' || c == '!' || c == ':'

/-- Modelled from the spec (§4.1): checks the type segment, the header
breaking marker and the description, producing the header parts or a
violation.  The type must be non-empty (else `MalformedHeader`) and must
match a recognized type exactly (else `UnknownType`); the description must
be non-empty after trimming (else `MissingDescription`). -/
def mkHeader (types : List Str) (t : Str) (sc : Option Str) (bang : Bool)
    (after : Str) : Except CommitViolation HeaderParts :=
  if t = [] then .error .malformedHeader
  else if t ∈ types then
    if trimStr after = [] then .error .missingDescription
    else .ok ⟨t, sc, bang, trimStr after⟩
  else .error .unknownType

/-- Modelled from the spec (§4.1): after type and optional scope, an
optional `!` immediately before `:` sets the header breaking marker; a
header with no `:` is malformed. -/
def finishHeader (types : List Str) (t : Str) (sc : Option Str) :
    Str → Except CommitViolation HeaderParts
  | '!' :: ':' :: after => mkHeader types t sc true after
  | ':' :: after => mkHeader types t sc false after
  | _ => .error .malformedHeader

/-- Modelled from the spec (§4.1): parses one header line against the
grammar `type ["(" scope ")"] ["!"] ":" " " description`.  Empty
parentheses yield `EmptyScope`; an unclosed scope is malformed. -/
def parseHeader (types : List Str) (header : Str) : Except CommitViolation HeaderParts :=
  let t := header.takeWhile (fun c => !headerStop c)
  match header.dropWhile (fun c => !headerStop c) with
  | '(' :: rest2 =>
    let sc := rest2.takeWhile (fun c => !(c == ')'))
    match rest2.dropWhile (fun c => !(c == ')')) with
    | ')' :: rest4 =>
      if sc = [] then .error .emptyScope
      else finishHeader types t (some sc) rest4
    | _ => .error .malformedHeader
  | rest => finishHeader types t none rest

/-- The token `BREAKING CHANGE`. -/
def bcTokenSpace : Str := ("BREAKING CHANGE").data

/-- The token `BREAKING-CHANGE`. -/
def bcTokenDash : Str := ("BREAKING-CHANGE").data

/-- List-prefix test, by recursion. -/
def isPrefixList : Str → Str → Bool
  | [], _ => true
  | _ :: _, [] => false
  | a :: as, b :: bs => a == b && isPrefixList as bs

/-- Modelled from the spec (§4.1): a footer line beginning with
`BREAKING CHANGE` or `BREAKING-CHANGE` followed by `:` or a single space
marks a breaking change. -/
def isBreakingFooter (line : Str) : Bool :=
  isPrefixList (bcTokenSpace ++ [':']) line || isPrefixList (bcTokenSpace ++ [' ']) line ||
    isPrefixList (bcTokenDash ++ [':']) line || isPrefixList (bcTokenDash ++ [' ']) line

/-- The first line of a raw message. -/
def firstLine (raw : Str) : Str :=
  match splitLines raw with
  | [] => []
  | l :: _ => l

/-- The lines of a raw message after the header line. -/
def footerLines (raw : Str) : List Str :=
  (splitLines raw).drop 1

/-- True when some line after the header is a breaking-change footer. -/
def hasBreakingFooterLine (raw : Str) : Bool :=
  (footerLines raw).any isBreakingFooter

/-- The header breaking marker of a raw message: the `!` flag of its
parsed header line, false when the header does not parse. -/
def headerBangOf (types : List Str) (raw : Str) : Bool :=
  match parseHeader types (firstLine raw) with
  | .ok hp => hp.breaking
  | .error _ => false

/-- Modelled from the spec (§4.1): `parse(raw_message, recognized_types)`
returns a structured record or a violation.  The record's `breaking` flag
is the logical OR of the header `!` marker and the presence of a breaking
footer line; `author` is provenance copied verbatim. -/
def parse (types : List Str) (raw : Str) (author : Str) :
    Except CommitViolation CommitRecord :=
  match splitLines raw with
  | [] => .error .malformedHeader
  | header :: rest =>
    match parseHeader types header with
    | .error v => .error v
    | .ok hp =>
      .ok ⟨hp.commit_type, hp.scope, hp.description,
        hp.breaking || rest.any isBreakingFooter, author⟩

/-- Claim C3: for every raw message that parses to a record, the record's
`breaking` flag equals the logical OR of the header `!` marker and the
presence of a footer line beginning with `BREAKING CHANGE` or
`BREAKING-CHANGE` followed by `:` or a single space — true when either or
both are present, false when both are absent. -/
theorem parse_breaking_or (types : List Str) (raw author : Str) (r : CommitRecord)
    (h : parse types raw author = .ok r) :
    r.breaking = (headerBangOf types raw || hasBreakingFooterLine raw) := by
  unfold parse at h
  split at h
  · exact absurd h (by simp)
  · rename_i header rest hs
    split at h
    · exact absurd h (by simp)
    · rename_i parts hp
      have hr : r = ⟨parts.commit_type, parts.scope, parts.description,
          parts.breaking || rest.any isBreakingFooter, author⟩ := by
        cases h
        rfl
      rw [hr]
      have hf : firstLine raw = header := by
        unfold firstLine
        rw [hs]
      simp [headerBangOf, hasBreakingFooterLine, footerLines, hs, hf, hp]

/-- Witness for C3: `fix: something` with a `BREAKING CHANGE:` footer
parses with `breaking = true`, the OR of an absent header marker and a
present footer token. -/
theorem parse_breaking_or_witness :
    (⟨typeFix, none, ("something").data, true, ("me").data⟩ : CommitRecord).breaking =
      (headerBangOf [typeFix] ("fix: something\n\nBREAKING CHANGE: removes old field").data ||
        hasBreakingFooterLine ("fix: something\n\nBREAKING CHANGE: removes old field").data) :=
  parse_breaking_or [typeFix] ("fix: something\n\nBREAKING CHANGE: removes old field").data
    ("me").data ⟨typeFix, none, ("something").data, true, ("me").data⟩ (by rfl)

/-- Serializes a record's header as `type[(scope)][!]: description`
(spec §8, round-trip property). -/
def serializeHeader (r : CommitRecord) : Str :=
  r.commit_type ++
    (match r.scope with
      | some s => '(' :: (s ++ [')'])
      | none => []) ++
    (if r.breaking then ['!'] else []) ++
    ':' :: ' ' :: r.description

theorem splitLinesAux_no_newline (s : Str) :
    ∀ acc, '\n' ∉ s → splitLinesAux s acc = [acc.reverse ++ s] := by
  induction s with
  | nil => intro acc _; simp [splitLinesAux]
  | cons c rest ih =>
    intro acc h
    have hc : ¬c = '\n' := by
      intro e
      exact h (by simp [e])
    have hr : '\n' ∉ rest := fun m => h (by simp [m])
    simp [splitLinesAux, hc, ih (c :: acc) hr]

theorem splitLines_single (s : Str) (h : '\n' ∉ s) : splitLines s = [s] := by
  simpa [splitLines] using splitLinesAux_no_newline s [] h

theorem trimStr_space_cons (s : Str) : trimStr (' ' :: s) = trimStr s := by
  simp [trimStr, List.dropWhile_cons]

theorem finishHeader_nobang (types : List Str) (t : Str) (sc : Option Str) (d : Str)
    (ht0 : t ≠ []) (ht : t ∈ types) (hd0 : d ≠ []) (hdt : trimStr d = d) :
    finishHeader types t sc (':' :: ' ' :: d) = .ok ⟨t, sc, false, d⟩ := by
  have htrim : trimStr (' ' :: d) = d := by rw [trimStr_space_cons, hdt]
  simp [finishHeader, mkHeader, ht0, ht, htrim, hd0]

theorem finishHeader_bang (types : List Str) (t : Str) (sc : Option Str) (d : Str)
    (ht0 : t ≠ []) (ht : t ∈ types) (hd0 : d ≠ []) (hdt : trimStr d = d) :
    finishHeader types t sc ('!' :: ':' :: ' ' :: d) = .ok ⟨t, sc, true, d⟩ := by
  have htrim : trimStr (' ' :: d) = d := by rw [trimStr_space_cons, hdt]
  simp [finishHeader, mkHeader, ht0, ht, htrim, hd0]

theorem takeWhile_header_split (ct : Str) (c : Char) (R : Str)
    (hct : ∀ a ∈ ct, (!headerStop a) = true) (hc : headerStop c = true) :
    (ct ++ c :: R).takeWhile (fun x => !headerStop x) = ct ∧
    (ct ++ c :: R).dropWhile (fun x => !headerStop x) = c :: R := by
  constructor
  · rw [List.takeWhile_append_of_pos hct]
    simp [List.takeWhile_cons, hc]
  · rw [List.dropWhile_append_of_pos hct]
    simp [List.dropWhile_cons, hc]

theorem takeWhile_scope_split (s B : Str) (hs : ∀ c ∈ s, (!(c == ')')) = true) :
    (s ++ ')' :: B).takeWhile (fun c => !(c == ')')) = s ∧
    (s ++ ')' :: B).dropWhile (fun c => !(c == ')')) = ')' :: B := by
  constructor
  · rw [List.takeWhile_append_of_pos hs]
    simp [List.takeWhile_cons]
  · rw [List.dropWhile_append_of_pos hs]
    simp [List.dropWhile_cons]

theorem parseHeader_serialize (types : List Str) (ct : Str) (sco : Option Str)
    (brk : Bool) (d au : Str) (ht : ct ∈ types) (ht0 : ct ≠ [])
    (htc : ∀ c ∈ ct, headerStop c = false)
    (hsc : match sco with
      | some s => s ≠ [] ∧ ∀ c ∈ s, (c == ')') = false
      | none => True)
    (hd0 : d ≠ []) (hdt : trimStr d = d) :
    parseHeader types (serializeHeader ⟨ct, sco, d, brk, au⟩) = .ok ⟨ct, sco, brk, d⟩ := by
  have hp : ∀ a ∈ ct, (!headerStop a) = true := fun a ha => by simp [htc a ha]
  cases sco with
  | none =>
    cases brk with
    | false =>
      have hser : serializeHeader ⟨ct, none, d, false, au⟩ = ct ++ ':' :: ' ' :: d := by
        simp [serializeHeader]
      obtain ⟨htake, hdrop⟩ := takeWhile_header_split ct ':' (' ' :: d) hp (by decide)
      rw [hser]
      simp [parseHeader, htake, hdrop, finishHeader_nobang types ct none d ht0 ht hd0 hdt]
    | true =>
      have hser : serializeHeader ⟨ct, none, d, true, au⟩ =
          ct ++ '!' :: ':' :: ' ' :: d := by
        simp [serializeHeader]
      obtain ⟨htake, hdrop⟩ := takeWhile_header_split ct '!' (':' :: ' ' :: d) hp (by decide)
      rw [hser]
      simp [parseHeader, htake, hdrop, finishHeader_bang types ct none d ht0 ht hd0 hdt]
  | some s =>
    obtain ⟨hs0, hsmem⟩ := hsc
    have hsb : ∀ c ∈ s, (!(c == ')')) = true := fun c hc => by simp [hsmem c hc]
    cases brk with
    | false =>
      have hser : serializeHeader ⟨ct, some s, d, false, au⟩ =
          ct ++ '(' :: (s ++ ')' :: (':' :: ' ' :: d)) := by
        simp [serializeHeader]
      obtain ⟨htake, hdrop⟩ :=
        takeWhile_header_split ct '(' (s ++ ')' :: (':' :: ' ' :: d)) hp (by decide)
      obtain ⟨hstake, hsdrop⟩ := takeWhile_scope_split s (':' :: ' ' :: d) hsb
      rw [hser]
      simp [parseHeader, htake, hdrop, hstake, hsdrop, hs0,
        finishHeader_nobang types ct (some s) d ht0 ht hd0 hdt]
    | true =>
      have hser : serializeHeader ⟨ct, some s, d, true, au⟩ =
          ct ++ '(' :: (s ++ ')' :: ('!' :: ':' :: ' ' :: d)) := by
        simp [serializeHeader]
      obtain ⟨htake, hdrop⟩ :=
        takeWhile_header_split ct '(' (s ++ ')' :: ('!' :: ':' :: ' ' :: d)) hp (by decide)
      obtain ⟨hstake, hsdrop⟩ := takeWhile_scope_split s ('!' :: ':' :: ' ' :: d) hsb
      rw [hser]
      simp [parseHeader, htake, hdrop, hstake, hsdrop, hs0,
        finishHeader_bang types ct (some s) d ht0 ht hd0 hdt]

/-- Claim C7: serializing a valid structured record's header as type,
optional parenthesized scope, optional `!`, then `: ` and the
description, and re-parsing it with the same recognized types, yields a
record identical to the original in `commit_type`, `scope`, `breaking`
and `description` (footer and body fields are not encoded in the header,
so the whole record round-trips). -/
theorem parse_serialize_header_roundtrip (types : List Str) (r : CommitRecord)
    (ht : r.commit_type ∈ types) (ht0 : r.commit_type ≠ [])
    (htc : ∀ c ∈ r.commit_type, headerStop c = false ∧ c ≠ '\n')
    (hsc : match r.scope with
      | some s => s ≠ [] ∧ ∀ c ∈ s, (c == ')') = false ∧ c ≠ '\n'
      | none => True)
    (hd0 : r.description ≠ []) (hdt : trimStr r.description = r.description)
    (hdn : '\n' ∉ r.description) :
    parse types (serializeHeader r) r.author = .ok r := by
  obtain ⟨ct, sco, d, brk, au⟩ := r
  have hscNl : '\n' ∉ (match sco with
      | some s => '(' :: (s ++ [')'])
      | none => ([] : Str)) := by
    cases sco with
    | none => simp
    | some s =>
      intro m
      simp only [List.mem_cons, List.mem_append, List.mem_singleton] at m
      rcases m with m | m | m
      · exact absurd m (by decide)
      · exact ((hsc.2) _ m).2 rfl
      · exact absurd m (by decide)
  have hbangNl : '\n' ∉ (if brk then ['!'] else ([] : Str)) := by
    cases brk with
    | false => simp
    | true =>
      intro m
      simp only [if_pos, List.mem_singleton] at m
      exact absurd m (by decide)
  have hnl : '\n' ∉ serializeHeader ⟨ct, sco, d, brk, au⟩ := by
    intro m
    simp only [serializeHeader, List.mem_append, List.mem_cons] at m
    rcases m with ((m | m) | m) | m | m | m
    · exact (htc _ m).2 rfl
    · exact hscNl m
    · exact hbangNl m
    · exact absurd m (by decide)
    · exact absurd m (by decide)
    · exact hdn m
  have hph := parseHeader_serialize types ct sco brk d au ht ht0
    (fun c hc => (htc c hc).1)
    (by
      cases sco with
      | none => trivial
      | some s => exact ⟨hsc.1, fun c hc => (hsc.2 c hc).1⟩)
    hd0 hdt
  have hsingle := splitLines_single _ hnl
  unfold parse
  rw [hsingle]
  simp [hph]

/-- Witness for C7: `feat(parser)` with description `support nested
scopes` round-trips through its serialized header. -/
theorem parse_serialize_header_roundtrip_witness :
    parse [typeFeat]
      (serializeHeader ⟨typeFeat, some ("parser").data,
        ("support nested scopes").data, false, ("me").data⟩) ("me").data =
      .ok ⟨typeFeat, some ("parser").data, ("support nested scopes").data,
        false, ("me").data⟩ :=
  parse_serialize_header_roundtrip [typeFeat]
    ⟨typeFeat, some ("parser").data, ("support nested scopes").data, false, ("me").data⟩
    (by decide) (by decide) (by decide) (by decide) (by decide) (by decide) (by decide)

/-- Remote linking context: host, owner and repository identifiers
(spec §4.4, glossary). -/
structure RemoteContext where
  host : Str
  owner : Str
  repository : Str
deriving DecidableEq, Repr

/-- Modelled from the spec (§4.4): the template selector of the
changelog renderer.  `Custom` carries the path to a template; loading
that path is external I/O and is not modelled further. -/
inductive TemplateSelector where
  | default : TemplateSelector
  | fullHash : TemplateSelector
  | remote : TemplateSelector
  | custom : Str → TemplateSelector
deriving DecidableEq, Repr

/-- A rendering error (spec §7). -/
inductive RenderError where
  | missingRemoteContext : RenderError
  | templateError : Str → RenderError
deriving DecidableEq, Repr

/-- A changelog section: one commit type with its ordered commits
(spec §3). -/
structure ChangelogSection where
  commit_type : Str
  commits : List CommitRecord
deriving DecidableEq, Repr

/-- A release boundary of a changelog document: label, timestamp and
ordered sections (spec §3). -/
structure ChangelogBoundary where
  label : Str
  timestamp : Str
  sections : List ChangelogSection
deriving DecidableEq, Repr

/-- A changelog document: ordered release boundaries (spec §3). -/
abbrev ChangelogDocument := List ChangelogBoundary

/-- One markdown list item for a commit: description, optional scope,
optional remote hyperlink (spec §6). -/
def renderCommit (ctx : Option RemoteContext) (r : CommitRecord) : Str :=
  '-' :: ' ' ::
    (match r.scope with
      | some s => '(' :: (s ++ [')', ' '])
      | none => []) ++
    r.description ++
    (match ctx with
      | some c => ' ' :: '(' :: (c.host ++ '/' :: c.owner ++ '/' :: c.repository ++ [')'])
      | none => []) ++
    ['\n']

/-- One markdown subsection: the type heading then one item per commit. -/
def renderSection (ctx : Option RemoteContext) (s : ChangelogSection) : Str :=
  '#' :: '#' :: '#' :: ' ' :: s.commit_type ++ '\n' ::
    (s.commits.map (renderCommit ctx)).flatten

/-- One markdown boundary: the release heading then its sections. -/
def renderBoundary (ctx : Option RemoteContext) (b : ChangelogBoundary) : Str :=
  '#' :: '#' :: ' ' :: b.label ++ ' ' :: '-' :: ' ' :: b.timestamp ++ '\n' ::
    (b.sections.map (renderSection ctx)).flatten

/-- Modelled from the spec (§4.4, §7, missing library
`cocogitto::conventional::changelog`): `render(sections, template, remote)`
formats a document; selecting `Remote` without a remote context is the
fatal error `MissingRemoteContext`, returning no partially rendered
document. -/
def render (doc : ChangelogDocument) (template : TemplateSelector)
    (ctx : Option RemoteContext) : Except RenderError Str :=
  match template, ctx with
  | .remote, none => .error .missingRemoteContext
  | .remote, some c => .ok ((doc.map (renderBoundary (some c))).flatten)
  | _, _ => .ok ((doc.map (renderBoundary none)).flatten)

/-- Claim C5: `render` with the `Remote` template selector and no remote
context fails with the fatal error `MissingRemoteContext`; no rendered
document, partial or otherwise, is returned. -/
theorem render_remote_missing_context (doc : ChangelogDocument) :
    render doc .remote none = .error .missingRemoteContext ∧
    ∀ s, render doc .remote none ≠ .ok s := by
  constructor
  · rfl
  · intro s h
    exact absurd h (by simp [render])

/-- Modelled from the spec (§4.2, §9, missing library
`cocogitto::log::filter`): a filter predicate.  `suppressErrors` is a
modifier consumed by the caller's error handling, not a record
predicate. -/
inductive FilterPredicate where
  | typeIs : List Str → FilterPredicate
  | scopeIs : List Str → FilterPredicate
  | authorIs : List Str → FilterPredicate
  | isBreaking : FilterPredicate
  | suppressErrors : FilterPredicate
deriving DecidableEq, Repr

/-- True for the predicates that inspect a record: type, scope, author
and breaking; false for the suppress-errors modifier. -/
def isRecordPredicate : FilterPredicate → Bool
  | .suppressErrors => false
  | _ => true

/-- Modelled from the spec (§4.2): whether a record satisfies one record
predicate (OR within each set). -/
def satisfiesPredicate (r : CommitRecord) : FilterPredicate → Bool
  | .typeIs ts => ts.any (fun t => t == r.commit_type)
  | .scopeIs ss =>
    match r.scope with
    | some s => ss.any (fun x => x == s)
    | none => false
  | .authorIs as => as.any (fun a => a == r.author)
  | .isBreaking => r.breaking
  | .suppressErrors => true

/-- Modelled from the spec (§4.2): a record is kept iff it satisfies the
logical AND of the supplied record predicates; the suppress-errors
modifier is excluded from the decision. -/
def keepRecord (preds : List FilterPredicate) (r : CommitRecord) : Bool :=
  (preds.filter isRecordPredicate).all (satisfiesPredicate r)

/-- Modelled from the spec (§4.2): order-preserving filtering of a record
sequence. -/
def filterRecords (preds : List FilterPredicate) (records : List CommitRecord) :
    List CommitRecord :=
  records.filter (keepRecord preds)

/-- The caller-side error-handling decision carried by the filter set:
whether upstream violations are tolerated (spec §7). -/
def errorsSuppressed (preds : List FilterPredicate) : Bool :=
  preds.any (fun p =>
    match p with
    | .suppressErrors => true
    | _ => false)

/-- From `src/bin/cog.rs` lines 262–287 (the `Log` arm of `main`): the
filter set built from the CLI options, in source order — types, scopes,
authors, the breaking-change flag, then the `no_error` option as the
suppress-errors modifier. -/
def buildLogFilters (typ scope author : Option (List Str))
    (breaking noError : Bool) : List FilterPredicate :=
  (match typ with
    | some ts => [FilterPredicate.typeIs ts]
    | none => []) ++
  (match scope with
    | some ss => [FilterPredicate.scopeIs ss]
    | none => []) ++
  (match author with
    | some as => [FilterPredicate.authorIs as]
    | none => []) ++
  (if breaking then [FilterPredicate.isBreaking] else []) ++
  (if noError then [FilterPredicate.suppressErrors] else [])

/-- Claim C6: the suppress-errors (`no_error`) option is not a record
predicate — the kept-record decision is the AND of the type, scope,
author and breaking predicates only, unchanged by inserting
`suppressErrors` anywhere in the filter set — and the option built by the
`Log` command is routed to the caller's error-handling decision
(`errorsSuppressed`), never to the filtering outcome. -/
theorem filter_suppress_errors_not_predicate :
    (∀ (preds₁ preds₂ : List FilterPredicate) (r : CommitRecord),
      keepRecord (preds₁ ++ FilterPredicate.suppressErrors :: preds₂) r =
        keepRecord (preds₁ ++ preds₂) r) ∧
    (∀ (typ scope author : Option (List Str)) (breaking : Bool)
        (records : List CommitRecord),
      filterRecords (buildLogFilters typ scope author breaking true) records =
        filterRecords (buildLogFilters typ scope author breaking false) records) ∧
    (∀ (typ scope author : Option (List Str)) (breaking noError : Bool),
      errorsSuppressed (buildLogFilters typ scope author breaking noError) = noError) := by
  refine ⟨fun preds₁ preds₂ r => ?_, fun typ scope author breaking records => ?_,
    fun typ scope author breaking noError => ?_⟩
  · simp [keepRecord, List.filter_append, List.filter_cons, isRecordPredicate]
  · have h1 : ∀ r, keepRecord (buildLogFilters typ scope author breaking true) r =
        keepRecord (buildLogFilters typ scope author breaking false) r := by
      intro r
      simp [buildLogFilters, keepRecord, List.filter_append, List.filter_cons,
        isRecordPredicate]
    simp only [filterRecords]
    rw [funext h1]
  · cases typ <;> cases scope <;> cases author <;> cases breaking <;> cases noError <;>
      simp [buildLogFilters, errorsSuppressed, List.any_append, satisfiesPredicate]

/-- Claim C8: `parse`, `next_version` and `render` are deterministic —
pure functions of their inputs, so any two invocations with identical
inputs, in any order, yield identical outputs. -/
theorem core_deterministic :
    (∀ (types₁ types₂ : List Str) (raw₁ raw₂ author₁ author₂ : Str),
      types₁ = types₂ → raw₁ = raw₂ → author₁ = author₂ →
      parse types₁ raw₁ author₁ = parse types₂ raw₂ author₂) ∧
    (∀ (c₁ c₂ : SemVer) (rs₁ rs₂ : List CommitRecord) (o₁ o₂ : Option ManualTarget),
      c₁ = c₂ → rs₁ = rs₂ → o₁ = o₂ → next_version c₁ rs₁ o₁ = next_version c₂ rs₂ o₂) ∧
    (∀ (d₁ d₂ : ChangelogDocument) (t₁ t₂ : TemplateSelector)
        (x₁ x₂ : Option RemoteContext),
      d₁ = d₂ → t₁ = t₂ → x₁ = x₂ → render d₁ t₁ x₁ = render d₂ t₂ x₂) := by
  refine ⟨?_, ?_, ?_⟩ <;> intros <;> subst_vars <;> rfl

/-- Witness for C8: two invocations of `parse` on the same concrete
message agree. -/
theorem core_deterministic_witness :
    parse [typeFeat] ("feat: x").data ("me").data =
      parse [typeFeat] ("feat: x").data ("me").data :=
  core_deterministic.1 [typeFeat] [typeFeat] ("feat: x").data ("feat: x").data
    ("me").data ("me").data rfl rfl rfl

/-- From `src/bin/cog.rs` line 8: the increment selector passed to
`create_version`. -/
inductive VersionIncrement where
  | manual : Str → VersionIncrement
  | auto : VersionIncrement
  | major : VersionIncrement
  | minor : VersionIncrement
  | patch : VersionIncrement
deriving DecidableEq, Repr

/-- From `src/bin/cog.rs` lines 219–226 (the `Bump` arm of `main`): the
match selecting the increment from the CLI arguments; `none` models the
`unreachable!()` branch. -/
def selectIncrement (version : Option Str) (auto major minor patch : Bool) :
    Option VersionIncrement :=
  match version with
  | some v => some (.manual v)
  | none =>
    if auto then some .auto
    else if major then some .major
    else if minor then some .minor
    else if patch then some .patch
    else none

/-- Claim C9: in the `Bump` command, under the precondition that at least
one of `version`, `auto`, `major`, `minor`, `patch` is supplied, the
increment-selection match always produces a `VersionIncrement` and the
`unreachable!()` branch is never taken; a supplied manual version takes
priority over every flag. -/
theorem bump_increment_selection (version : Option Str) (auto major minor patch : Bool)
    (h : version.isSome = true ∨ auto = true ∨ major = true ∨ minor = true ∨
      patch = true) :
    (selectIncrement version auto major minor patch).isSome = true ∧
    (∀ v, version = some v →
      selectIncrement version auto major minor patch = some (.manual v)) := by
  constructor
  · cases version with
    | some v => rfl
    | none =>
      cases auto <;> cases major <;> cases minor <;> cases patch <;>
        simp_all [selectIncrement]
  · intro v hv
    rw [hv]
    rfl

/-- Witness for C9: with a manual version and every flag set, the
selection is defined and is the manual increment. -/
theorem bump_increment_selection_witness :
    (selectIncrement (some ("2.0.0").data) true true true true).isSome = true ∧
    selectIncrement (some ("2.0.0").data) true true true true =
      some (.manual ("2.0.0").data) :=
  ⟨(bump_increment_selection (some ("2.0.0").data) true true true true (by decide)).1,
   (bump_increment_selection (some ("2.0.0").data) true true true true (by decide)).2
     ("2.0.0").data rfl⟩

/-- The literal template argument `remote`. -/
def templateRemoteName : Str := ("remote").data

/-- From `src/bin/cog.rs` lines 306–321 (the `Changelog` arm of `main`):
the template argument resolved to the name and remote context handed to
`Template::from_arg`.  The outer `some none` is the fall-back to the
configured template when no argument is supplied; the outer `none` models
the `expect` panics when `remote`, `repository` or `owner` is absent for
the `remote` template. -/
def resolveChangelogTemplate (template remote owner repository : Option Str) :
    Option (Option (Str × Option RemoteContext)) :=
  match template with
  | none => some none
  | some t =>
    if t = templateRemoteName then
      match remote, repository, owner with
      | some re, some rp, some ow => some (some (t, some ⟨re, ow, rp⟩))
      | _, _, _ => none
    else some (some (t, none))

/-- Claim C10: in the `Changelog` command, whenever a template argument is
supplied and is not the literal `remote`, the template is constructed
with no remote context, and the `remote`, `owner` and `repository`
arguments have no effect on the result. -/
theorem changelog_template_no_remote_context (t : Str)
    (remote owner repository remote' owner' repository' : Option Str)
    (h : t ≠ templateRemoteName) :
    resolveChangelogTemplate (some t) remote owner repository =
      some (some (t, none)) ∧
    resolveChangelogTemplate (some t) remote owner repository =
      resolveChangelogTemplate (some t) remote' owner' repository' := by
  constructor <;> simp [resolveChangelogTemplate, h]

/-- Witness for C10: the `full_hash` template is resolved without remote
context whatever the remote arguments are. -/
theorem changelog_template_no_remote_context_witness :
    resolveChangelogTemplate (some ("full_hash").data) (some ("x").data) none none =
      some (some (("full_hash").data, none)) ∧
    resolveChangelogTemplate (some ("full_hash").data) (some ("x").data) none none =
      resolveChangelogTemplate (some ("full_hash").data) none (some ("y").data) none :=
  changelog_template_no_remote_context ("full_hash").data (some ("x").data) none none
    none (some ("y").data) none (by decide)

/-- Witness for C2: an explicit override on baseline `1.2.3` yields the
literal version. -/
theorem next_version_override_determines_witness :
    next_version ⟨1, 2, 3, none, none⟩ []
      (some (.explicit ⟨9, 9, 9, none, none⟩)) = .bump ⟨9, 9, 9, none, none⟩ :=
  (next_version_override_determines ⟨1, 2, 3, none, none⟩ [] []).1 ⟨9, 9, 9, none, none⟩

/-- Witness for C5: rendering the empty document with the `Remote`
selector and no context is the `MissingRemoteContext` error. -/
theorem render_remote_missing_context_witness :
    render [] .remote none = .error .missingRemoteContext :=
  (render_remote_missing_context []).1

/-- Witness for C6: the `no_error` option reaches the caller's
error-handling decision. -/
theorem filter_suppress_errors_not_predicate_witness :
    errorsSuppressed (buildLogFilters none none none false true) = true :=
  filter_suppress_errors_not_predicate.2.2 none none none false true
